import Mathlib

/-!
Verification of the `cachedb` write-back cache (`cachedb/cachewriter.go`).

The development embeds the repository's synchronization machinery:
* `deepCopy` / `copyRecursive` — the reflection-driven deep copy (`GoVal`,
  `zeroOf`, `deepCopy` below);
* the snapshot registry `copies`, the write-back comparator
  `saveIfModified`, and the eviction / purge callbacks `evictToDB` /
  `purgeToDB`;
* the library surface `Get` / `Set`, and the external collaborators
  (gcache cache core, gorm store) through the narrow contracts the code
  relies on: keyed lookup, miss-fill via the loader, evict/purge
  notifications fired before removal, keyed load and update.
-/

mutual
/-- A Go value as traversed by `copyRecursive`.  The constructors match the
kinds the `switch original.Kind()` in the source distinguishes:
pointers (nil or pointing to a value), interfaces (nil or boxing a value),
structs (a list of fields, each exported or unexported), slices and maps
(nil or concrete), basic scalar kinds (`base`, copied by the `default`
branch), and `unsup`, an opaque stand-in for the remaining kinds that fall
to the same `default` branch (chan, func, array, unsafe pointer, ...).
Values of this inductive type are acyclic by construction, matching the
spec's stated precondition that no cyclic value graphs occur.  Map contents
are kept in a canonical list form so that structural equality of `GoVal`
models `reflect.DeepEqual` (which, per its documentation, compares both
exported and unexported struct fields). -/
inductive GoVal where
  | base : Nat → GoVal
  | unsup : Nat → GoVal
  | ptrNil : GoVal
  | ptr : GoVal → GoVal
  | ifaceNil : GoVal
  | iface : GoVal → GoVal
  | struc : Fields → GoVal
  | sliceNil : GoVal
  | slice : Elems → GoVal
  | mapNil : GoVal
  | gmap : Pairs → GoVal
  deriving DecidableEq
inductive Fields where
  | nil : Fields
  | cons : Bool → GoVal → Fields → Fields
  deriving DecidableEq
inductive Elems where
  | nil : Elems
  | cons : GoVal → Elems → Elems
  deriving DecidableEq
inductive Pairs where
  | nil : Pairs
  | cons : Nat → GoVal → Pairs → Pairs
  deriving DecidableEq
end

mutual
/-- The zero value of the type of a given value: what
`reflect.New(original.Type()).Elem()` starts from before `copyRecursive`
fills it (nil for pointers, interfaces, slices and maps; all fields zero
for structs; zero for scalars). -/
def zeroOf : GoVal → GoVal
  | .base _ => .base 0
  | .unsup _ => .unsup 0
  | .ptrNil => .ptrNil
  | .ptr _ => .ptrNil
  | .ifaceNil => .ifaceNil
  | .iface _ => .ifaceNil
  | .struc fs => .struc (zeroFields fs)
  | .sliceNil => .sliceNil
  | .slice _ => .sliceNil
  | .mapNil => .mapNil
  | .gmap _ => .mapNil
def zeroFields : Fields → Fields
  | .nil => .nil
  | .cons e v rest => .cons e (zeroOf v) (zeroFields rest)
end

mutual
/-- `deepCopy` / `copyRecursive` from the source: the copy target always
starts as the zero value of the source's type, so the recursion computes a
function of the input value.  Nil pointers / interfaces / slices / maps
stay nil; pointers and interfaces recurse into the pointee / boxed value;
structs copy exported fields recursively and skip unexported ones (leaving
them at their zero value, `original.Type().Field(i).PkgPath != ""`); slices
and maps recurse element- / value-wise into fresh backing storage; all
remaining kinds hit the `default` branch `cpy.Set(original)` and are copied
by value. -/
def deepCopy : GoVal → GoVal
  | .base n => .base n
  | .unsup n => .unsup n
  | .ptrNil => .ptrNil
  | .ptr v => .ptr (deepCopy v)
  | .ifaceNil => .ifaceNil
  | .iface v => .iface (deepCopy v)
  | .struc fs => .struc (deepCopyFields fs)
  | .sliceNil => .sliceNil
  | .slice xs => .slice (deepCopyElems xs)
  | .mapNil => .mapNil
  | .gmap kvs => .gmap (deepCopyPairs kvs)
def deepCopyFields : Fields → Fields
  | .nil => .nil
  | .cons e v rest =>
      .cons e (if e then deepCopy v else zeroOf v) (deepCopyFields rest)
def deepCopyElems : Elems → Elems
  | .nil => .nil
  | .cons v rest => .cons (deepCopy v) (deepCopyElems rest)
def deepCopyPairs : Pairs → Pairs
  | .nil => .nil
  | .cons k v rest => .cons k (deepCopy v) (deepCopyPairs rest)
end

mutual
/-- Size of a value graph, used to bound the recursion depth of
`copyRecursive`. -/
def sizeG : GoVal → Nat
  | .base _ => 1
  | .unsup _ => 1
  | .ptrNil => 1
  | .ptr v => sizeG v + 1
  | .ifaceNil => 1
  | .iface v => sizeG v + 1
  | .struc fs => sizeF fs + 1
  | .sliceNil => 1
  | .slice xs => sizeE xs + 1
  | .mapNil => 1
  | .gmap kvs => sizeP kvs + 1
def sizeF : Fields → Nat
  | .nil => 1
  | .cons _ v rest => sizeG v + sizeF rest + 1
def sizeE : Elems → Nat
  | .nil => 1
  | .cons v rest => sizeG v + sizeE rest + 1
def sizeP : Pairs → Nat
  | .nil => 1
  | .cons _ v rest => sizeG v + sizeP rest + 1
end

mutual
/-- Fuel-indexed version of `copyRecursive`: the recursion of the source is
unbounded, so we model each recursive call as consuming one unit of fuel
and return `none` when fuel runs out.  Unexported struct fields are skipped
without a recursive call, exactly as in the source. -/
def copyFuel : Nat → GoVal → Option GoVal
  | 0, _ => none
  | n + 1, v =>
    match v with
    | .base m => some (.base m)
    | .unsup m => some (.unsup m)
    | .ptrNil => some .ptrNil
    | .ptr w => (copyFuel n w).map .ptr
    | .ifaceNil => some .ifaceNil
    | .iface w => (copyFuel n w).map .iface
    | .struc fs => (copyFuelFields n fs).map .struc
    | .sliceNil => some .sliceNil
    | .slice xs => (copyFuelElems n xs).map .slice
    | .mapNil => some .mapNil
    | .gmap kvs => (copyFuelPairs n kvs).map .gmap
def copyFuelFields : Nat → Fields → Option Fields
  | 0, _ => none
  | _ + 1, .nil => some .nil
  | n + 1, .cons e v rest =>
    match (if e then copyFuel n v else some (zeroOf v)), copyFuelFields n rest with
    | some cv, some crest => some (.cons e cv crest)
    | _, _ => none
def copyFuelElems : Nat → Elems → Option Elems
  | 0, _ => none
  | _ + 1, .nil => some .nil
  | n + 1, .cons v rest =>
    match copyFuel n v, copyFuelElems n rest with
    | some cv, some crest => some (.cons cv crest)
    | _, _ => none
def copyFuelPairs : Nat → Pairs → Option Pairs
  | 0, _ => none
  | _ + 1, .nil => some .nil
  | n + 1, .cons k v rest =>
    match copyFuel n v, copyFuelPairs n rest with
    | some cv, some crest => some (.cons k cv crest)
    | _, _ => none
end

mutual
/-- All fields without external visibility, at any depth reachable by
`copyRecursive`, hold the zero value of their type. -/
def unexpZero : GoVal → Bool
  | .base _ => true
  | .unsup _ => true
  | .ptrNil => true
  | .ptr v => unexpZero v
  | .ifaceNil => true
  | .iface v => unexpZero v
  | .struc fs => unexpZeroFields fs
  | .sliceNil => true
  | .slice xs => unexpZeroElems xs
  | .mapNil => true
  | .gmap kvs => unexpZeroPairs kvs
def unexpZeroFields : Fields → Bool
  | .nil => true
  | .cons e v rest =>
      (if e then unexpZero v else decide (v = zeroOf v)) && unexpZeroFields rest
def unexpZeroElems : Elems → Bool
  | .nil => true
  | .cons v rest => unexpZero v && unexpZeroElems rest
def unexpZeroPairs : Pairs → Bool
  | .nil => true
  | .cons _ v rest => unexpZero v && unexpZeroPairs rest
end

deriving instance DecidableEq for Except

/-- Association-list lookup: access to a Go map (`c.copies[key]`, the
store's keyed rows, the cache core's entries). -/
def lookupA {α : Type} (k : Nat) : List (Nat × α) → Option α
  | [] => none
  | (j, v) :: rest => if j = k then some v else lookupA k rest

/-- Key removal: `delete(m, key)`. -/
def eraseA {α : Type} (k : Nat) : List (Nat × α) → List (Nat × α)
  | [] => []
  | (j, v) :: rest => if j = k then eraseA k rest else (j, v) :: eraseA k rest

/-- Map update `m[key] = v` (replaces any previous binding). -/
def insertA {α : Type} (k : Nat) (v : α) (l : List (Nat × α)) :
    List (Nat × α) :=
  (k, v) :: eraseA k l

/-- The live value stored by the cache core under a key.  The Go cache
holds `interface{}` values; through the wrapper's own API they are always
of the concrete type `*T` (`ptrT`), but `saveIfModified` also guards
against other dynamic types (`otherv`), which fail its `newValue.(*T)`
assertion. -/
inductive CVal where
  | ptrT : GoVal → CVal
  | otherv : Nat → CVal
  deriving DecidableEq

/-- Whole-system state.  `rows` and `updFails` model the persistent store
(gorm): its keyed rows for `First`, and a knob saying whether `Updates`
fails with a store error.  `cache` is the cache core's live entries
(gcache) and `copies` the snapshot registry (`c.copies`).  Three
observation-only logs record what happened: `updates` every
`db.Model(&oldCopy).Updates(newVal)` call issued (key, new value),
`records` every baseline recording (key, baseline, live value at record
time), and `logs` every `fmt.Printf` line. -/
structure Sys where
  rows : List (Nat × GoVal)
  updFails : Bool
  cache : List (Nat × CVal)
  copies : List (Nat × GoVal)
  updates : List (Nat × GoVal)
  records : List (Nat × GoVal × GoVal)
  logs : List String
  deriving DecidableEq

/-- `saveIfModified` from the source: look up the baseline (error `no copy
found` when missing), assert the live value is a `*T` (error `invalid
value type` otherwise), compare baseline and live value with
`reflect.DeepEqual` and, only when they differ, issue
`db.Model(&oldCopy).Updates(newVal)` — recorded in `updates`, failing when
the store's `updFails` knob is set — and log `Saved changes` on success. -/
def saveIfModified (s : Sys) (key : Nat) (newValue : CVal) :
    Except String Unit × Sys :=
  match lookupA key s.copies with
  | none => (.error ("no copy found for key " ++ toString key), s)
  | some oldCopy =>
    match newValue with
    | .otherv _ => (.error ("invalid value type for key " ++ toString key), s)
    | .ptrT newVal =>
      if oldCopy = newVal then (.ok (), s)
      else
        let s1 := { s with updates := s.updates ++ [(key, newVal)] }
        if s1.updFails then (.error "failed to update", s1)
        else
          (.ok (),
            { s1 with
              logs := s1.logs ++ ["Saved changes for key " ++ toString key] })

/-- The `EvictedFunc` body (`evictToDB`): attempt the compare-and-save,
log any error, unconditionally delete the baseline, log the eviction.  Its
Go type returns nothing, so no error ever reaches a caller. -/
def evictToDB (s : Sys) (key : Nat) (value : CVal) : Sys :=
  let r := saveIfModified s key value
  let s1 :=
    match r.1 with
    | .error e => { r.2 with logs := r.2.logs ++ ["Evict save failed: " ++ e] }
    | .ok _ => r.2
  let s2 := { s1 with copies := eraseA key s1.copies }
  { s2 with logs := s2.logs ++ ["Evicted from cache: key=" ++ toString key] }

/-- The `PurgeVisitorFunc` body (`purgeToDB`): identical to `evictToDB`
except for the wording of the two log lines. -/
def purgeToDB (s : Sys) (key : Nat) (value : CVal) : Sys :=
  let r := saveIfModified s key value
  let s1 :=
    match r.1 with
    | .error e => { r.2 with logs := r.2.logs ++ ["Purge save failed: " ++ e] }
    | .ok _ => r.2
  let s2 := { s1 with copies := eraseA key s1.copies }
  { s2 with logs := s2.logs ++ ["Purged from cache: key=" ++ toString key] }

/-- The `LoaderFunc` body (`loadFromDB`): `db.First(&entity, key)`; on a
load error wrap and return it, touching no cache state; on success record
`copies[key] = deepCopy(entity)` and return `&entity` as the fill
result. -/
def loadFromDB (s : Sys) (key : Nat) : Except String CVal × Sys :=
  match lookupA key s.rows with
  | none => (.error "failed to load from DB: record not found", s)
  | some entity =>
      (.ok (.ptrT entity),
        { s with
          copies := insertA key (deepCopy entity) s.copies,
          records := s.records ++ [(key, deepCopy entity, entity)] })

/-- gcache `Cache.Get` under the cache-core contract (spec §4.3): a hit
returns the stored value; a miss invokes the loader and, only on success,
installs the loaded value as the new entry. -/
def cacheGet (s : Sys) (key : Nat) : Except String CVal × Sys :=
  match lookupA key s.cache with
  | some v => (.ok v, s)
  | none =>
      match loadFromDB s key with
      | (.error e, s1) => (.error e, s1)
      | (.ok v, s1) => (.ok v, { s1 with cache := insertA key v s1.cache })

/-- `Get` from the source: `c.Cache.Get(key)` followed by the `val.(*T)`
type assertion.  Through this API cached values are always `ptrT`; the
`otherv` branch (where Go would panic on the bare assertion) is mapped to
an error here and is unreachable from the operations below. -/
def cacheDBGet (s : Sys) (key : Nat) : Except String GoVal × Sys :=
  match cacheGet s key with
  | (.error e, s1) => (.error e, s1)
  | (.ok (.ptrT v), s1) => (.ok v, s1)
  | (.ok (.otherv _), s1) => (.error "invalid type assertion", s1)

/-- `Set` from the source: record `copies[key] = deepCopy(value)`, then
`c.Cache.Set(key, &value)`, which stores the fresh pointer and fires the
added-log callback. -/
def cacheDBSet (s : Sys) (key : Nat) (value : GoVal) : Sys :=
  let s1 :=
    { s with
      copies := insertA key (deepCopy value) s.copies,
      records := s.records ++ [(key, deepCopy value, value)] }
  { s1 with
    cache := insertA key (.ptrT value) s1.cache,
    logs := s1.logs ++ ["New cache added: key=" ++ toString key] }

/-- A caller mutating fields through the live `*T` reference returned by
`Get`/stored by `Set`: the pointer aliases the cache entry, so the entry's
value changes in place; no registry or store bookkeeping happens (the
mutation stays invisible until write-back). -/
def mutateLive (s : Sys) (key : Nat) (f : GoVal → GoVal) : Sys :=
  match lookupA key s.cache with
  | some (.ptrT v) => { s with cache := insertA key (.ptrT (f v)) s.cache }
  | _ => s

/-- The cache core removing an entry under capacity or expiration pressure
(spec §4.3): the `EvictedFunc` fires with the entry immediately before the
removal. -/
def evictKey (s : Sys) (key : Nat) : Sys :=
  match lookupA key s.cache with
  | none => s
  | some v =>
      let s1 := evictToDB s key v
      { s1 with cache := eraseA key s1.cache }

def purgeVisit : List (Nat × CVal) → Sys → Sys
  | [], s => s
  | (k, v) :: rest, s => purgeVisit rest (purgeToDB s k v)

/-- gcache `Purge`: visit every entry with the `PurgeVisitorFunc`, then
clear the cache. -/
def purgeAllSys (s : Sys) : Sys :=
  let s1 := purgeVisit s.cache s
  { s1 with cache := [] }

/-- The system's operation alphabet: the library surface (`get`, `set`),
caller mutation through a live reference, and the cache core's internally
triggered removals (eviction and purge-all). -/
inductive Op where
  | get : Nat → Op
  | set : Nat → GoVal → Op
  | mutate : Nat → (GoVal → GoVal) → Op
  | evict : Nat → Op
  | purge : Op

def stepOp (s : Sys) : Op → Sys
  | .get k => (cacheDBGet s k).2
  | .set k v => cacheDBSet s k v
  | .mutate k f => mutateLive s k f
  | .evict k => evictKey s k
  | .purge => purgeAllSys s

def runOps (s : Sys) : List Op → Sys
  | [] => s
  | op :: rest => runOps (stepOp s op) rest

/-- A freshly constructed `CacheDB` (`NewWithCache`): empty cache, empty
snapshot registry, no observations; the store rows and the update-failure
knob are the environment's choice. -/
def initSys (rows : List (Nat × GoVal)) (updFails : Bool) : Sys :=
  { rows := rows, updFails := updFails, cache := [], copies := [],
    updates := [], records := [], logs := [] }

/-- Structural equality over exported state (the spec's comparison notion
for §3's invariants): two values agree after erasing all state without
external visibility.  `deepCopy` is exactly that erasure, so the erased
forms are compared. -/
def exportedEq (a b : GoVal) : Prop := deepCopy a = deepCopy b

instance (a b : GoVal) : Decidable (exportedEq a b) :=
  inferInstanceAs (Decidable (deepCopy a = deepCopy b))

/-- The spec's registry/cache synchronization invariant (§3): the cache
core and the snapshot registry hold the same key set; every baseline
currently in the registry stems from a record event whose baseline was
exported-state equal to the then-live entry; and every record event ever
logged satisfies that equality. -/
def SyncInv (s : Sys) : Prop :=
  (∀ k, (lookupA k s.cache).isSome ↔ (lookupA k s.copies).isSome) ∧
  (∀ k b, lookupA k s.copies = some b →
      ∃ v, (k, b, v) ∈ s.records ∧ exportedEq b v) ∧
  (∀ r ∈ s.records, exportedEq r.2.1 r.2.2)

mutual
theorem zeroOf_idem : ∀ v, zeroOf (zeroOf v) = zeroOf v
  | .base _ => rfl
  | .unsup _ => rfl
  | .ptrNil => rfl
  | .ptr _ => rfl
  | .ifaceNil => rfl
  | .iface _ => rfl
  | .struc fs => by simp [zeroOf, zeroFields_idem fs]
  | .sliceNil => rfl
  | .slice _ => rfl
  | .mapNil => rfl
  | .gmap _ => rfl
theorem zeroFields_idem : ∀ fs, zeroFields (zeroFields fs) = zeroFields fs
  | .nil => rfl
  | .cons e v rest => by simp [zeroFields, zeroOf_idem v, zeroFields_idem rest]
end

mutual
theorem deepCopy_eq_self_iff : ∀ v, deepCopy v = v ↔ unexpZero v = true
  | .base _ => by simp [deepCopy, unexpZero]
  | .unsup _ => by simp [deepCopy, unexpZero]
  | .ptrNil => by simp [deepCopy, unexpZero]
  | .ptr w => by simp [deepCopy, unexpZero, deepCopy_eq_self_iff w]
  | .ifaceNil => by simp [deepCopy, unexpZero]
  | .iface w => by simp [deepCopy, unexpZero, deepCopy_eq_self_iff w]
  | .struc fs => by simp [deepCopy, unexpZero, deepCopyFields_eq_self_iff fs]
  | .sliceNil => by simp [deepCopy, unexpZero]
  | .slice xs => by simp [deepCopy, unexpZero, deepCopyElems_eq_self_iff xs]
  | .mapNil => by simp [deepCopy, unexpZero]
  | .gmap kvs => by simp [deepCopy, unexpZero, deepCopyPairs_eq_self_iff kvs]
theorem deepCopyFields_eq_self_iff :
    ∀ fs, deepCopyFields fs = fs ↔ unexpZeroFields fs = true
  | .nil => by simp [deepCopyFields, unexpZeroFields]
  | .cons e v rest => by
      cases e with
      | true =>
          simp [deepCopyFields, unexpZeroFields, deepCopy_eq_self_iff v,
            deepCopyFields_eq_self_iff rest]
      | false =>
          simp [deepCopyFields, unexpZeroFields,
            deepCopyFields_eq_self_iff rest, @eq_comm _ (zeroOf v) v]
theorem deepCopyElems_eq_self_iff :
    ∀ xs, deepCopyElems xs = xs ↔ unexpZeroElems xs = true
  | .nil => by simp [deepCopyElems, unexpZeroElems]
  | .cons v rest => by
      simp [deepCopyElems, unexpZeroElems, deepCopy_eq_self_iff v,
        deepCopyElems_eq_self_iff rest]
theorem deepCopyPairs_eq_self_iff :
    ∀ kvs, deepCopyPairs kvs = kvs ↔ unexpZeroPairs kvs = true
  | .nil => by simp [deepCopyPairs, unexpZeroPairs]
  | .cons k v rest => by
      simp [deepCopyPairs, unexpZeroPairs, deepCopy_eq_self_iff v,
        deepCopyPairs_eq_self_iff rest]
end

mutual
theorem unexpZero_deepCopy : ∀ v, unexpZero (deepCopy v) = true
  | .base _ => rfl
  | .unsup _ => rfl
  | .ptrNil => rfl
  | .ptr w => by simp [deepCopy, unexpZero, unexpZero_deepCopy w]
  | .ifaceNil => rfl
  | .iface w => by simp [deepCopy, unexpZero, unexpZero_deepCopy w]
  | .struc fs => by simp [deepCopy, unexpZero, unexpZeroFields_deepCopy fs]
  | .sliceNil => rfl
  | .slice xs => by simp [deepCopy, unexpZero, unexpZeroElems_deepCopy xs]
  | .mapNil => rfl
  | .gmap kvs => by simp [deepCopy, unexpZero, unexpZeroPairs_deepCopy kvs]
theorem unexpZeroFields_deepCopy :
    ∀ fs, unexpZeroFields (deepCopyFields fs) = true
  | .nil => rfl
  | .cons e v rest => by
      cases e with
      | true =>
          simp [deepCopyFields, unexpZeroFields, unexpZero_deepCopy v,
            unexpZeroFields_deepCopy rest]
      | false =>
          simp [deepCopyFields, unexpZeroFields, zeroOf_idem v,
            unexpZeroFields_deepCopy rest]
theorem unexpZeroElems_deepCopy :
    ∀ xs, unexpZeroElems (deepCopyElems xs) = true
  | .nil => rfl
  | .cons v rest => by
      simp [deepCopyElems, unexpZeroElems, unexpZero_deepCopy v,
        unexpZeroElems_deepCopy rest]
theorem unexpZeroPairs_deepCopy :
    ∀ kvs, unexpZeroPairs (deepCopyPairs kvs) = true
  | .nil => rfl
  | .cons k v rest => by
      simp [deepCopyPairs, unexpZeroPairs, unexpZero_deepCopy v,
        unexpZeroPairs_deepCopy rest]
end

/-- The deep copy is idempotent: a baseline snapshot is itself unchanged by
re-copying (all its externally invisible state is already zero). -/
theorem deepCopy_idem (v : GoVal) : deepCopy (deepCopy v) = deepCopy v :=
  (deepCopy_eq_self_iff (deepCopy v)).mpr (unexpZero_deepCopy v)

theorem sizeG_pos : ∀ v, 1 ≤ sizeG v := by
  intro v; cases v <;> simp [sizeG]

theorem sizeF_pos : ∀ fs, 1 ≤ sizeF fs := by
  intro fs; cases fs <;> simp [sizeF]

theorem sizeE_pos : ∀ xs, 1 ≤ sizeE xs := by
  intro xs; cases xs <;> simp [sizeE]

theorem sizeP_pos : ∀ kvs, 1 ≤ sizeP kvs := by
  intro kvs; cases kvs <;> simp [sizeP]

/-- With fuel at least the size of the (acyclic) value graph, the
fuel-indexed copy succeeds and computes exactly `deepCopy`. -/
theorem copyFuel_sufficient : ∀ n,
    (∀ v, sizeG v ≤ n → copyFuel n v = some (deepCopy v)) ∧
    (∀ fs, sizeF fs ≤ n → copyFuelFields n fs = some (deepCopyFields fs)) ∧
    (∀ xs, sizeE xs ≤ n → copyFuelElems n xs = some (deepCopyElems xs)) ∧
    (∀ kvs, sizeP kvs ≤ n → copyFuelPairs n kvs = some (deepCopyPairs kvs)) := by
  intro n
  induction n with
  | zero =>
      refine ⟨fun v h => absurd h ?_, fun fs h => absurd h ?_,
        fun xs h => absurd h ?_, fun kvs h => absurd h ?_⟩
      · have := sizeG_pos v; omega
      · have := sizeF_pos fs; omega
      · have := sizeE_pos xs; omega
      · have := sizeP_pos kvs; omega
  | succ n ih =>
      obtain ⟨ihG, ihF, ihE, ihP⟩ := ih
      refine ⟨?_, ?_, ?_, ?_⟩
      · intro v h
        cases v with
        | base m => simp [copyFuel, deepCopy]
        | unsup m => simp [copyFuel, deepCopy]
        | ptrNil => simp [copyFuel, deepCopy]
        | ptr w =>
            have hw : sizeG w ≤ n := by simp [sizeG] at h; omega
            simp [copyFuel, deepCopy, ihG w hw]
        | ifaceNil => simp [copyFuel, deepCopy]
        | iface w =>
            have hw : sizeG w ≤ n := by simp [sizeG] at h; omega
            simp [copyFuel, deepCopy, ihG w hw]
        | struc fs =>
            have hf : sizeF fs ≤ n := by simp [sizeG] at h; omega
            simp [copyFuel, deepCopy, ihF fs hf]
        | sliceNil => simp [copyFuel, deepCopy]
        | slice xs =>
            have hx : sizeE xs ≤ n := by simp [sizeG] at h; omega
            simp [copyFuel, deepCopy, ihE xs hx]
        | mapNil => simp [copyFuel, deepCopy]
        | gmap kvs =>
            have hk : sizeP kvs ≤ n := by simp [sizeG] at h; omega
            simp [copyFuel, deepCopy, ihP kvs hk]
      · intro fs h
        cases fs with
        | nil => simp [copyFuelFields, deepCopyFields]
        | cons e v rest =>
            have hv : sizeG v ≤ n := by simp [sizeF] at h; omega
            have hr : sizeF rest ≤ n := by simp [sizeF] at h; omega
            cases e with
            | true => simp [copyFuelFields, deepCopyFields, ihG v hv, ihF rest hr]
            | false => simp [copyFuelFields, deepCopyFields, ihF rest hr]
      · intro xs h
        cases xs with
        | nil => simp [copyFuelElems, deepCopyElems]
        | cons v rest =>
            have hv : sizeG v ≤ n := by simp [sizeE] at h; omega
            have hr : sizeE rest ≤ n := by simp [sizeE] at h; omega
            simp [copyFuelElems, deepCopyElems, ihG v hv, ihE rest hr]
      · intro kvs h
        cases kvs with
        | nil => simp [copyFuelPairs, deepCopyPairs]
        | cons k v rest =>
            have hv : sizeG v ≤ n := by simp [sizeP] at h; omega
            have hr : sizeP rest ≤ n := by simp [sizeP] at h; omega
            simp [copyFuelPairs, deepCopyPairs, ihG v hv, ihP rest hr]

theorem lookupA_insertA_self {α : Type} (k : Nat) (v : α) (l : List (Nat × α)) :
    lookupA k (insertA k v l) = some v := by
  simp [insertA, lookupA]

theorem lookupA_eraseA_self {α : Type} (k : Nat) (l : List (Nat × α)) :
    lookupA k (eraseA k l) = none := by
  induction l with
  | nil => simp [eraseA, lookupA]
  | cons hd tl ih =>
      obtain ⟨j, v⟩ := hd
      by_cases hj : j = k <;> simp [eraseA, lookupA, hj, ih]

theorem lookupA_eraseA_ne {α : Type} {k j : Nat} (h : j ≠ k) (l : List (Nat × α)) :
    lookupA j (eraseA k l) = lookupA j l := by
  induction l with
  | nil => simp [eraseA]
  | cons hd tl ih =>
      obtain ⟨i, v⟩ := hd
      by_cases hik : i = k
      · subst hik
        have hij : i ≠ j := fun hh => h hh.symm
        simp [eraseA, lookupA, hij, ih]
      · simp [eraseA, lookupA, hik, ih]

theorem lookupA_insertA_ne {α : Type} {k j : Nat} (h : j ≠ k) (v : α)
    (l : List (Nat × α)) : lookupA j (insertA k v l) = lookupA j l := by
  have hkj : k ≠ j := fun hh => h hh.symm
  simp [insertA, lookupA, hkj, lookupA_eraseA_ne h]

theorem saveIfModified_stable (s : Sys) (k : Nat) (cv : CVal) :
    (saveIfModified s k cv).2.copies = s.copies ∧
    (saveIfModified s k cv).2.cache = s.cache ∧
    (saveIfModified s k cv).2.records = s.records ∧
    (saveIfModified s k cv).2.rows = s.rows ∧
    (saveIfModified s k cv).2.updFails = s.updFails := by
  unfold saveIfModified
  cases lookupA k s.copies with
  | none => simp
  | some oldCopy =>
      cases cv with
      | otherv n => simp
      | ptrT newVal =>
          by_cases hbv : oldCopy = newVal <;> simp [hbv] <;> split <;> simp

theorem saveIfModified_updates_of_copy (s : Sys) (k : Nat) (b v : GoVal)
    (hb : lookupA k s.copies = some b) :
    (saveIfModified s k (.ptrT v)).2.updates
      = if b = v then s.updates else s.updates ++ [(k, v)] := by
  unfold saveIfModified
  rw [hb]
  by_cases hbv : b = v <;> simp [hbv] <;> split <;> simp

theorem evictToDB_core (s : Sys) (k : Nat) (cv : CVal) :
    (evictToDB s k cv).copies = eraseA k s.copies ∧
    (evictToDB s k cv).cache = s.cache ∧
    (evictToDB s k cv).updates = (saveIfModified s k cv).2.updates ∧
    (evictToDB s k cv).records = s.records ∧
    (evictToDB s k cv).rows = s.rows ∧
    (evictToDB s k cv).updFails = s.updFails := by
  have hs := saveIfModified_stable s k cv
  rcases hr : saveIfModified s k cv with ⟨res, s2⟩
  rw [hr] at hs
  simp only at hs
  obtain ⟨h1, h2, h3, h4, h5⟩ := hs
  cases res <;> simp [evictToDB, hr, h1, h2, h3, h4, h5]

theorem purgeToDB_core (s : Sys) (k : Nat) (cv : CVal) :
    (purgeToDB s k cv).copies = eraseA k s.copies ∧
    (purgeToDB s k cv).cache = s.cache ∧
    (purgeToDB s k cv).updates = (saveIfModified s k cv).2.updates ∧
    (purgeToDB s k cv).records = s.records ∧
    (purgeToDB s k cv).rows = s.rows ∧
    (purgeToDB s k cv).updFails = s.updFails := by
  have hs := saveIfModified_stable s k cv
  rcases hr : saveIfModified s k cv with ⟨res, s2⟩
  rw [hr] at hs
  simp only at hs
  obtain ⟨h1, h2, h3, h4, h5⟩ := hs
  cases res <;> simp [purgeToDB, hr, h1, h2, h3, h4, h5]

theorem exportedEq_deepCopy (v : GoVal) : exportedEq (deepCopy v) v := by
  unfold exportedEq
  exact deepCopy_idem v

theorem lookupA_eq_none_iff {α : Type} (j : Nat) (l : List (Nat × α)) :
    lookupA j l = none ↔ j ∉ l.map Prod.fst := by
  induction l with
  | nil => simp [lookupA]
  | cons hd tl ih =>
      obtain ⟨k, v⟩ := hd
      by_cases hkj : k = j
      · subst hkj; simp [lookupA]
      · have hjk : j ≠ k := fun hh => hkj hh.symm
        simp [lookupA, hkj, hjk, ih]

theorem cacheDBSet_fields (s : Sys) (k : Nat) (v : GoVal) :
    (cacheDBSet s k v).cache = insertA k (.ptrT v) s.cache ∧
    (cacheDBSet s k v).copies = insertA k (deepCopy v) s.copies ∧
    (cacheDBSet s k v).updates = s.updates ∧
    (cacheDBSet s k v).records = s.records ++ [(k, deepCopy v, v)] ∧
    (cacheDBSet s k v).rows = s.rows ∧
    (cacheDBSet s k v).updFails = s.updFails := by
  simp [cacheDBSet]

theorem cacheDBGet_hit (s : Sys) (k : Nat) (cv : CVal)
    (h : lookupA k s.cache = some cv) : (cacheDBGet s k).2 = s := by
  cases cv <;> simp [cacheDBGet, cacheGet, h]

theorem cacheDBGet_miss_notfound (s : Sys) (k : Nat)
    (hc : lookupA k s.cache = none) (hrow : lookupA k s.rows = none) :
    cacheDBGet s k = (.error "failed to load from DB: record not found", s) := by
  simp [cacheDBGet, cacheGet, loadFromDB, hc, hrow]

theorem cacheDBGet_miss_found (s : Sys) (k : Nat) (v : GoVal)
    (hc : lookupA k s.cache = none) (hrow : lookupA k s.rows = some v) :
    (cacheDBGet s k).1 = .ok v ∧
    (cacheDBGet s k).2.cache = insertA k (.ptrT v) s.cache ∧
    (cacheDBGet s k).2.copies = insertA k (deepCopy v) s.copies ∧
    (cacheDBGet s k).2.records = s.records ++ [(k, deepCopy v, v)] ∧
    (cacheDBGet s k).2.updates = s.updates ∧
    (cacheDBGet s k).2.rows = s.rows ∧
    (cacheDBGet s k).2.updFails = s.updFails := by
  simp [cacheDBGet, cacheGet, loadFromDB, hc, hrow]

theorem mutateLive_fields (s : Sys) (k : Nat) (f : GoVal → GoVal) (v : GoVal)
    (h : lookupA k s.cache = some (.ptrT v)) :
    (mutateLive s k f).cache = insertA k (.ptrT (f v)) s.cache ∧
    (mutateLive s k f).copies = s.copies ∧
    (mutateLive s k f).updates = s.updates ∧
    (mutateLive s k f).records = s.records ∧
    (mutateLive s k f).rows = s.rows ∧
    (mutateLive s k f).updFails = s.updFails := by
  simp [mutateLive, h]

theorem evictKey_fields (s : Sys) (k : Nat) (cv : CVal)
    (h : lookupA k s.cache = some cv) :
    (evictKey s k).cache = eraseA k s.cache ∧
    (evictKey s k).copies = eraseA k s.copies ∧
    (evictKey s k).records = s.records ∧
    (evictKey s k).updates = (saveIfModified s k cv).2.updates ∧
    (evictKey s k).rows = s.rows ∧
    (evictKey s k).updFails = s.updFails := by
  have he := evictToDB_core s k cv
  simp [evictKey, h, he.1, he.2.1, he.2.2.1, he.2.2.2.1, he.2.2.2.2.1,
    he.2.2.2.2.2]

theorem saveIfModified_no_copy (s : Sys) (k : Nat) (cv : CVal)
    (h : lookupA k s.copies = none) :
    saveIfModified s k cv = (.error ("no copy found for key " ++ toString k), s) := by
  simp [saveIfModified, h]

theorem saveIfModified_type_mismatch (s : Sys) (k : Nat) (n : Nat) (b : GoVal)
    (h : lookupA k s.copies = some b) :
    saveIfModified s k (.otherv n)
      = (.error ("invalid value type for key " ++ toString k), s) := by
  simp [saveIfModified, h]

theorem saveIfModified_upd_fail (s : Sys) (k : Nat) (b v : GoVal)
    (h : lookupA k s.copies = some b) (hne : b ≠ v) (hf : s.updFails = true) :
    saveIfModified s k (.ptrT v)
      = (.error "failed to update", { s with updates := s.updates ++ [(k, v)] }) := by
  simp [saveIfModified, h, hne, hf]

theorem saveIfModified_updates_mono (s : Sys) (k : Nat) (cv : CVal) :
    (saveIfModified s k cv).2.updates = s.updates ∨
    ∃ w, cv = .ptrT w ∧
      (saveIfModified s k cv).2.updates = s.updates ++ [(k, w)] := by
  unfold saveIfModified
  cases lookupA k s.copies with
  | none => left; simp
  | some b =>
      cases cv with
      | otherv n => left; simp
      | ptrT w =>
          by_cases hbw : b = w
          · left; simp [hbw]
          · right
            refine ⟨w, rfl, ?_⟩
            simp only [hbw, if_false]
            split <;> simp

/-- C1 counterexample.  The claim, as stated, decides the store write by
"structural equality over exported state".  Take `T` a struct with a single
unexported field and `Set(1, v)` with that field nonzero: the recorded
baseline is `deepCopy v` (unexported field zeroed), which is exported-state
equal to the live value `v`; yet on eviction `reflect.DeepEqual(oldCopy,
*newVal)` — which also compares unexported fields — reports a difference
and an update call is issued, so "update iff exported state differs" is
false. -/
theorem C1_counterexample :
    lookupA 1 (cacheDBSet (initSys [] false) 1
        (GoVal.struc (.cons false (.base 1) .nil))).copies
      = some (deepCopy (GoVal.struc (.cons false (.base 1) .nil))) ∧
    exportedEq (deepCopy (GoVal.struc (.cons false (.base 1) .nil)))
      (GoVal.struc (.cons false (.base 1) .nil)) ∧
    (evictKey (cacheDBSet (initSys [] false) 1
        (GoVal.struc (.cons false (.base 1) .nil))) 1).updates ≠ [] := by
  refine ⟨by decide, by decide, by decide⟩

/-- C1 (amended): for every key whose baseline is present in the snapshot
registry and whose live value has the expected concrete type `*T`, when
the key is evicted or purged an update call is issued to the persistent
store if and only if the live value differs from the recorded baseline
under `reflect.DeepEqual`'s full structural equality — which compares the
live value's unexported fields against the baseline's zeroed ones — and
the baseline is discarded in either case. -/
theorem C1_write_back_iff (s : Sys) (k : Nat) (b v : GoVal)
    (hb : lookupA k s.copies = some b) :
    ((evictToDB s k (.ptrT v)).updates
        = if b = v then s.updates else s.updates ++ [(k, v)]) ∧
    lookupA k (evictToDB s k (.ptrT v)).copies = none ∧
    ((purgeToDB s k (.ptrT v)).updates
        = if b = v then s.updates else s.updates ++ [(k, v)]) ∧
    lookupA k (purgeToDB s k (.ptrT v)).copies = none := by
  refine ⟨?_, ?_, ?_, ?_⟩
  · rw [(evictToDB_core s k (.ptrT v)).2.2.1,
      saveIfModified_updates_of_copy s k b v hb]
  · rw [(evictToDB_core s k (.ptrT v)).1, lookupA_eraseA_self]
  · rw [(purgeToDB_core s k (.ptrT v)).2.2.1,
      saveIfModified_updates_of_copy s k b v hb]
  · rw [(purgeToDB_core s k (.ptrT v)).1, lookupA_eraseA_self]

theorem C1_write_back_iff_witness :
    lookupA 1 (evictToDB (cacheDBSet (initSys [] false) 1 (GoVal.base 3)) 1
      (CVal.ptrT (GoVal.base 3))).copies = none :=
  (C1_write_back_iff (cacheDBSet (initSys [] false) 1 (GoVal.base 3)) 1
    (GoVal.base 3) (GoVal.base 3) (by decide)).2.1

/-- C3: `Set(k, v)` followed immediately by `Get(k)` succeeds, returns the
reference whose pointed-to value is exactly `v` (hence structurally equal
to it), and the hit leaves the state untouched. -/
theorem C3_round_trip (s : Sys) (k : Nat) (v : GoVal) :
    (cacheDBGet (cacheDBSet s k v) k).1 = .ok v ∧
    (cacheDBGet (cacheDBSet s k v) k).2 = cacheDBSet s k v := by
  simp [cacheDBGet, cacheGet, cacheDBSet, lookupA_insertA_self]

/-- C4: on a `Get` miss, a failed persistent-store load propagates its
error to the caller and creates no cache state at all (the state is
exactly the old one, so the key is absent from the cache and the snapshot
registry is unchanged); on load success the baseline `deepCopy` of the
loaded entity is recorded under the key and the entity reference is
returned as the fill result. -/
theorem C4_load_error_propagates (s : Sys) (k : Nat)
    (hmiss : lookupA k s.cache = none) :
    (lookupA k s.rows = none →
      (cacheDBGet s k).1 = .error "failed to load from DB: record not found" ∧
      (cacheDBGet s k).2 = s) ∧
    (∀ v, lookupA k s.rows = some v →
      (cacheDBGet s k).1 = .ok v ∧
      lookupA k (cacheDBGet s k).2.copies = some (deepCopy v) ∧
      lookupA k (cacheDBGet s k).2.cache = some (.ptrT v)) := by
  constructor
  · intro hrow
    rw [cacheDBGet_miss_notfound s k hmiss hrow]
    exact ⟨rfl, rfl⟩
  · intro v hrow
    have h := cacheDBGet_miss_found s k v hmiss hrow
    exact ⟨h.1, by rw [h.2.2.1, lookupA_insertA_self],
      by rw [h.2.1, lookupA_insertA_self]⟩

theorem C4_load_error_propagates_witness :
    (cacheDBGet (initSys [(1, GoVal.base 2)] false) 2).1
      = .error "failed to load from DB: record not found" ∧
    (cacheDBGet (initSys [(1, GoVal.base 2)] false) 1).1 = .ok (GoVal.base 2) :=
  ⟨((C4_load_error_propagates (initSys [(1, GoVal.base 2)] false) 2
      (by decide)).1 (by decide)).1,
   ((C4_load_error_propagates (initSys [(1, GoVal.base 2)] false) 1
      (by decide)).2 (GoVal.base 2) (by decide)).1⟩

/-- C7: on every acyclic value graph (all values of `GoVal` are acyclic by
construction) the unbounded recursion of `copyRecursive` terminates: fuel
equal to the size of the value suffices, and the fuel-indexed copy then
computes exactly `deepCopy`. -/
theorem C7_deepCopy_terminates (v : GoVal) :
    copyFuel (sizeG v) v = some (deepCopy v) :=
  (copyFuel_sufficient (sizeG v)).1 v (Nat.le_refl _)

/-- C8 counterexample.  The claim's parenthetical says unsupported value
shapes are left at their zero value.  In the code every kind outside the
handled cases falls to the `default` branch `cpy.Set(original)` and is
copied by value: for an unsupported sub-value (`GoVal.unsup`, e.g. a chan
field) the copy keeps the original value and is not the zero value. -/
theorem C8_counterexample :
    deepCopy (GoVal.struc (.cons true (.unsup 5) .nil))
      = GoVal.struc (.cons true (.unsup 5) .nil) ∧
    deepCopy (GoVal.struc (.cons true (.unsup 5) .nil))
      ≠ GoVal.struc (.cons true (zeroOf (.unsup 5)) .nil) := by
  refine ⟨by decide, by decide⟩

/-- C8 (amended): for every input value `deepCopy` returns normally — the
fuel-indexed recursion succeeds, it never panics or aborts — and
unsupported value shapes degrade to a plain copy-by-value of that
sub-value (sharing the underlying handle) rather than failing; they are
not zeroed. -/
theorem C8_no_failure :
    (∀ v, (copyFuel (sizeG v) v).isSome = true) ∧
    (∀ n, deepCopy (GoVal.unsup n) = GoVal.unsup n) := by
  constructor
  · intro v
    rw [(copyFuel_sufficient (sizeG v)).1 v (Nat.le_refl _)]
    rfl
  · intro n
    rfl

/-- C10: the eviction callback and the purge-visitor callback have
identical effects on every state component — snapshot registry, cache,
update calls, record log, store rows, failure knob — both invoking the
same `saveIfModified` and both deleting the baseline unconditionally; they
differ only in the text of the log lines they emit (same number of
lines). -/
theorem C10_evict_purge_equal_effects (s : Sys) (k : Nat) (cv : CVal) :
    (evictToDB s k cv).copies = (purgeToDB s k cv).copies ∧
    (evictToDB s k cv).cache = (purgeToDB s k cv).cache ∧
    (evictToDB s k cv).updates = (purgeToDB s k cv).updates ∧
    (evictToDB s k cv).records = (purgeToDB s k cv).records ∧
    (evictToDB s k cv).rows = (purgeToDB s k cv).rows ∧
    (evictToDB s k cv).updFails = (purgeToDB s k cv).updFails ∧
    (evictToDB s k cv).logs.length = (purgeToDB s k cv).logs.length := by
  have he := evictToDB_core s k cv
  have hp := purgeToDB_core s k cv
  refine ⟨by rw [he.1, hp.1], by rw [he.2.1, hp.2.1],
    by rw [he.2.2.1, hp.2.2.1], by rw [he.2.2.2.1, hp.2.2.2.1],
    by rw [he.2.2.2.2.1, hp.2.2.2.2.1], by rw [he.2.2.2.2.2, hp.2.2.2.2.2], ?_⟩
  rcases hr : saveIfModified s k cv with ⟨res, s2⟩
  cases res <;> simp [evictToDB, purgeToDB, hr]

/-- C2 counterexample.  Take `T` a struct with one unexported field and
`Set(1, v)` with that field nonzero: no mutation happens between the `Set`
and the eviction, yet an update call is issued, because the baseline
`deepCopy v` zeroed the unexported field while `reflect.DeepEqual` still
compares it. -/
theorem C2_counterexample :
    (evictKey (cacheDBSet (initSys [] false) 1
        (GoVal.struc (.cons false (.base 1) .nil))) 1).updates
      = [(1, GoVal.struc (.cons false (.base 1) .nil))] := by decide

/-- C2 (amended): if no mutation of the live entry occurs between its
load-miss fill or explicit `Set` and its eviction or purge, and every
field of the value without external visibility (at any depth) holds its
zero value — which is in particular the case for store-loaded entities,
whose unexported fields the loader leaves at zero — then no
persistent-store update call is issued for that key. -/
theorem C2_no_op_on_unchanged (s : Sys) (k : Nat) (v : GoVal)
    (hz : unexpZero v = true) :
    (evictKey (cacheDBSet s k v) k).updates = s.updates ∧
    (lookupA k s.copies = some (deepCopy v) →
      (purgeToDB s k (.ptrT v)).updates = s.updates) ∧
    (lookupA k s.cache = none → lookupA k s.rows = some v →
      (evictKey (cacheDBGet s k).2 k).updates = s.updates) := by
  have hdc : deepCopy v = v := (deepCopy_eq_self_iff v).mpr hz
  refine ⟨?_, ?_, ?_⟩
  · have hsf := cacheDBSet_fields s k v
    have hcache : lookupA k (cacheDBSet s k v).cache = some (.ptrT v) := by
      rw [hsf.1]; exact lookupA_insertA_self k _ _
    have hcop : lookupA k (cacheDBSet s k v).copies = some (deepCopy v) := by
      rw [hsf.2.1]; exact lookupA_insertA_self k _ _
    rw [(evictKey_fields (cacheDBSet s k v) k (.ptrT v) hcache).2.2.2.1,
      saveIfModified_updates_of_copy _ k (deepCopy v) v hcop]
    simp [hdc, hsf.2.2.1]
  · intro hb
    rw [(purgeToDB_core s k (.ptrT v)).2.2.1,
      saveIfModified_updates_of_copy s k (deepCopy v) v hb]
    simp [hdc]
  · intro hmiss hrow
    have hg := cacheDBGet_miss_found s k v hmiss hrow
    have hcache : lookupA k (cacheDBGet s k).2.cache = some (.ptrT v) := by
      rw [hg.2.1]; exact lookupA_insertA_self k _ _
    have hcop : lookupA k (cacheDBGet s k).2.copies = some (deepCopy v) := by
      rw [hg.2.2.1]; exact lookupA_insertA_self k _ _
    rw [(evictKey_fields _ k (.ptrT v) hcache).2.2.2.1,
      saveIfModified_updates_of_copy _ k (deepCopy v) v hcop]
    simp [hdc, hg.2.2.2.2.1]

theorem C2_no_op_on_unchanged_witness :
    (evictKey (cacheDBSet (initSys [] false) 1
        (GoVal.struc (.cons true (.base 5) .nil))) 1).updates = [] :=
  (C2_no_op_on_unchanged (initSys [] false) 1
    (GoVal.struc (.cons true (.base 5) .nil)) (by decide)).1

/-- C5: every write-back-path error — missing baseline, live value not of
the concrete type `*T`, persistent-store update failure — is only logged
and never retried, and never prevents removal: both callbacks delete the
baseline from the snapshot registry in all paths, the entry still leaves
the cache, and at most one update call is ever issued per write-back.  The
callbacks' Go type returns nothing, so no error reaches any caller. -/
theorem C5_write_back_errors (s : Sys) (k : Nat) (cv : CVal) :
    lookupA k (evictToDB s k cv).copies = none ∧
    lookupA k (purgeToDB s k cv).copies = none ∧
    (lookupA k s.cache = some cv → lookupA k (evictKey s k).cache = none) ∧
    ((evictToDB s k cv).updates = s.updates ∨
      ∃ w, cv = .ptrT w ∧ (evictToDB s k cv).updates = s.updates ++ [(k, w)]) ∧
    (lookupA k s.copies = none →
      (evictToDB s k cv).updates = s.updates ∧
      (evictToDB s k cv).logs = s.logs
        ++ ["Evict save failed: " ++ ("no copy found for key " ++ toString k),
            "Evicted from cache: key=" ++ toString k]) ∧
    (∀ n b, cv = .otherv n → lookupA k s.copies = some b →
      (evictToDB s k cv).updates = s.updates ∧
      (evictToDB s k cv).logs = s.logs
        ++ ["Evict save failed: " ++ ("invalid value type for key " ++ toString k),
            "Evicted from cache: key=" ++ toString k]) ∧
    (∀ b w, cv = .ptrT w → lookupA k s.copies = some b → b ≠ w →
      s.updFails = true →
      (evictToDB s k cv).updates = s.updates ++ [(k, w)] ∧
      (evictToDB s k cv).logs = s.logs
        ++ ["Evict save failed: failed to update",
            "Evicted from cache: key=" ++ toString k]) := by
  refine ⟨?_, ?_, ?_, ?_, ?_, ?_, ?_⟩
  · rw [(evictToDB_core s k cv).1, lookupA_eraseA_self]
  · rw [(purgeToDB_core s k cv).1, lookupA_eraseA_self]
  · intro hc
    rw [(evictKey_fields s k cv hc).1, lookupA_eraseA_self]
  · rw [(evictToDB_core s k cv).2.2.1]
    exact saveIfModified_updates_mono s k cv
  · intro hnone
    have hsm := saveIfModified_no_copy s k cv hnone
    constructor
    · rw [(evictToDB_core s k cv).2.2.1, hsm]
    · simp [evictToDB, hsm]
  · intro n b hcv hb
    subst hcv
    have hsm := saveIfModified_type_mismatch s k n b hb
    constructor
    · rw [(evictToDB_core s k _).2.2.1, hsm]
    · simp [evictToDB, hsm]
  · intro b w hcv hb hne hf
    subst hcv
    have hsm := saveIfModified_upd_fail s k b w hb hne hf
    constructor
    · rw [(evictToDB_core s k _).2.2.1, hsm]
    · simp [evictToDB, hsm]

theorem C5_write_back_errors_witness :
    lookupA 1 (evictToDB (initSys [] false) 1 (CVal.otherv 0)).copies = none ∧
    (evictToDB (initSys [] false) 1 (CVal.otherv 0)).updates = [] :=
  ⟨(C5_write_back_errors (initSys [] false) 1 (CVal.otherv 0)).1,
   ((C5_write_back_errors (initSys [] false) 1 (CVal.otherv 0)).2.2.2.2.1
      (by decide)).1⟩

/-- C6 counterexample.  The claim says a mutation affecting only
unexported fields can never be detected as dirty.  Mutating an unexported
field from zero to nonzero IS detected: the baseline holds zero for that
field while `reflect.DeepEqual` compares it against the live (nonzero)
value, so an update call is issued. -/
theorem C6_counterexample :
    (evictKey (mutateLive (cacheDBSet (initSys [] false) 1
        (GoVal.struc (.cons false (.base 0) .nil))) 1
        (fun _ => GoVal.struc (.cons false (.base 1) .nil))) 1).updates
      = [(1, GoVal.struc (.cons false (.base 1) .nil))] := by decide

/-- C6 (amended): `deepCopy` copies each exported field recursively and
leaves every field without external visibility at its zero value in the
copy; consequently the write-back comparison checks the live entry's
unexported fields against zero rather than against their recorded values,
so a mutation affecting only unexported fields (exported state preserved)
goes undetected exactly when it leaves every unexported field
zero-valued — and is detected as dirty otherwise. -/
theorem C6_unexported_dirty (s : Sys) (k : Nat) (v w : GoVal)
    (hexp : deepCopy w = deepCopy v) :
    unexpZero (deepCopy v) = true ∧
    ((evictKey (mutateLive (cacheDBSet s k v) k (fun _ => w)) k).updates
        = s.updates ↔ unexpZero w = true) := by
  refine ⟨unexpZero_deepCopy v, ?_⟩
  have hsf := cacheDBSet_fields s k v
  have hcache1 : lookupA k (cacheDBSet s k v).cache = some (.ptrT v) := by
    rw [hsf.1]; exact lookupA_insertA_self k _ _
  have hm := mutateLive_fields (cacheDBSet s k v) k (fun _ => w) v hcache1
  have hcache2 : lookupA k (mutateLive (cacheDBSet s k v) k
      (fun _ => w)).cache = some (.ptrT w) := by
    rw [hm.1]; exact lookupA_insertA_self k _ _
  have hcop2 : lookupA k (mutateLive (cacheDBSet s k v) k
      (fun _ => w)).copies = some (deepCopy v) := by
    rw [hm.2.1, hsf.2.1]; exact lookupA_insertA_self k _ _
  rw [(evictKey_fields _ k (.ptrT w) hcache2).2.2.2.1,
    saveIfModified_updates_of_copy _ k (deepCopy v) w hcop2,
    hm.2.2.1, hsf.2.2.1]
  by_cases hvw : deepCopy v = w
  · have hww : deepCopy w = w := by rw [hexp, hvw]
    simp [hvw, (deepCopy_eq_self_iff w).mp hww]
  · simp only [hvw, if_false]
    constructor
    · intro hcontra
      exact absurd hcontra (by simp)
    · intro hzw
      have hvw2 : deepCopy v = w := by
        rw [← hexp]
        exact (deepCopy_eq_self_iff w).mpr hzw
      exact absurd hvw2 hvw

theorem C6_unexported_dirty_witness :
    unexpZero (deepCopy (GoVal.struc (.cons false (.base 0) .nil))) = true ∧
    ¬((evictKey (mutateLive (cacheDBSet (initSys [] false) 1
        (GoVal.struc (.cons false (.base 0) .nil))) 1
        (fun _ => GoVal.struc (.cons false (.base 1) .nil))) 1).updates
      = []) := by
  have h := C6_unexported_dirty (initSys [] false) 1
    (GoVal.struc (.cons false (.base 0) .nil))
    (GoVal.struc (.cons false (.base 1) .nil)) (by decide)
  exact ⟨h.1, fun heq => absurd (h.2.mp heq) (by decide)⟩

theorem inv_record_install (s : Sys) (k : Nat) (v : GoVal) (h : SyncInv s)
    (s2 : Sys)
    (hcache : s2.cache = insertA k (.ptrT v) s.cache)
    (hcopies : s2.copies = insertA k (deepCopy v) s.copies)
    (hrecords : s2.records = s.records ++ [(k, deepCopy v, v)]) :
    SyncInv s2 := by
  obtain ⟨h1, h2, h3⟩ := h
  refine ⟨?_, ?_, ?_⟩
  · intro j
    by_cases hj : j = k
    · subst hj
      rw [hcache, hcopies, lookupA_insertA_self, lookupA_insertA_self]
      simp
    · rw [hcache, hcopies, lookupA_insertA_ne hj, lookupA_insertA_ne hj]
      exact h1 j
  · intro j b hb
    by_cases hj : j = k
    · subst hj
      rw [hcopies, lookupA_insertA_self] at hb
      obtain rfl : deepCopy v = b := by injection hb
      exact ⟨v, by rw [hrecords]; simp, exportedEq_deepCopy v⟩
    · rw [hcopies, lookupA_insertA_ne hj] at hb
      obtain ⟨w, hw, he⟩ := h2 j b hb
      exact ⟨w, by rw [hrecords]; exact List.mem_append_left _ hw, he⟩
  · intro r hr
    rw [hrecords] at hr
    rcases List.mem_append.mp hr with hold | hnew
    · exact h3 r hold
    · have : r = (k, deepCopy v, v) := by simpa using hnew
      subst this
      exact exportedEq_deepCopy v

theorem inv_mutate (s : Sys) (k : Nat) (f : GoVal → GoVal) (h : SyncInv s) :
    SyncInv (mutateLive s k f) := by
  unfold mutateLive
  cases hc : lookupA k s.cache with
  | none => exact h
  | some cv =>
      cases cv with
      | otherv n => exact h
      | ptrT v =>
          obtain ⟨h1, h2, h3⟩ := h
          refine ⟨?_, h2, h3⟩
          intro j
          by_cases hj : j = k
          · subst hj
            rw [lookupA_insertA_self]
            simp only [Option.isSome_some, true_iff]
            exact (h1 j).mp (by rw [hc]; rfl)
          · rw [lookupA_insertA_ne hj]
            exact h1 j

theorem inv_evict (s : Sys) (k : Nat) (h : SyncInv s) : SyncInv (evictKey s k) := by
  cases hc : lookupA k s.cache with
  | none => simpa [evictKey, hc] using h
  | some cv =>
      have hf := evictKey_fields s k cv hc
      obtain ⟨h1, h2, h3⟩ := h
      refine ⟨?_, ?_, ?_⟩
      · intro j
        rw [hf.1, hf.2.1]
        by_cases hj : j = k
        · subst hj
          rw [lookupA_eraseA_self, lookupA_eraseA_self]
          exact Iff.rfl
        · rw [lookupA_eraseA_ne hj, lookupA_eraseA_ne hj]
          exact h1 j
      · intro j b hb
        rw [hf.2.1] at hb
        by_cases hj : j = k
        · subst hj
          rw [lookupA_eraseA_self] at hb
          exact absurd hb (by simp)
        · rw [lookupA_eraseA_ne hj] at hb
          obtain ⟨w, hw, hee⟩ := h2 j b hb
          exact ⟨w, by rw [hf.2.2.1]; exact hw, hee⟩
      · intro r hr
        rw [hf.2.2.1] at hr
        exact h3 r hr

theorem purgeVisit_cache (l : List (Nat × CVal)) (s : Sys) :
    (purgeVisit l s).cache = s.cache := by
  induction l generalizing s with
  | nil => rfl
  | cons hd tl ih =>
      obtain ⟨k, v⟩ := hd
      rw [purgeVisit, ih, (purgeToDB_core s k v).2.1]

theorem purgeVisit_records (l : List (Nat × CVal)) (s : Sys) :
    (purgeVisit l s).records = s.records := by
  induction l generalizing s with
  | nil => rfl
  | cons hd tl ih =>
      obtain ⟨k, v⟩ := hd
      rw [purgeVisit, ih, (purgeToDB_core s k v).2.2.2.1]

theorem purgeVisit_copies_none (l : List (Nat × CVal)) (s : Sys) (j : Nat)
    (h : lookupA j s.copies = none) :
    lookupA j (purgeVisit l s).copies = none := by
  induction l generalizing s with
  | nil => exact h
  | cons hd tl ih =>
      obtain ⟨k, v⟩ := hd
      rw [purgeVisit]
      apply ih
      rw [(purgeToDB_core s k v).1]
      by_cases hj : j = k
      · subst hj
        exact lookupA_eraseA_self j _
      · rw [lookupA_eraseA_ne hj]
        exact h

theorem purgeVisit_copies_mem (l : List (Nat × CVal)) (s : Sys) (j : Nat)
    (hj : j ∈ l.map Prod.fst) :
    lookupA j (purgeVisit l s).copies = none := by
  induction l generalizing s with
  | nil => simp at hj
  | cons hd tl ih =>
      obtain ⟨k, v⟩ := hd
      rw [purgeVisit]
      by_cases hjk : j = k
      · apply purgeVisit_copies_none
        rw [(purgeToDB_core s k v).1]
        subst hjk
        exact lookupA_eraseA_self j _
      · apply ih
        simp only [List.map_cons, List.mem_cons] at hj
        rcases hj with hjk2 | hmem
        · exact absurd hjk2 hjk
        · exact hmem

theorem inv_purge (s : Sys) (h : SyncInv s) : SyncInv (purgeAllSys s) := by
  obtain ⟨h1, h2, h3⟩ := h
  have hcop : ∀ j, lookupA j (purgeAllSys s).copies = none := by
    intro j
    show lookupA j (purgeVisit s.cache s).copies = none
    by_cases hj : j ∈ s.cache.map Prod.fst
    · exact purgeVisit_copies_mem s.cache s j hj
    · apply purgeVisit_copies_none
      have hcnone : lookupA j s.cache = none :=
        (lookupA_eq_none_iff j s.cache).mpr hj
      cases hcopj : lookupA j s.copies with
      | none => rfl
      | some b =>
          have : (lookupA j s.cache).isSome := (h1 j).mpr (by rw [hcopj]; rfl)
          rw [hcnone] at this
          exact absurd this (by simp)
  have hrec : (purgeAllSys s).records = s.records := by
    show (purgeVisit s.cache s).records = s.records
    exact purgeVisit_records s.cache s
  refine ⟨?_, ?_, ?_⟩
  · intro j
    rw [hcop j]
    show (lookupA j ([] : List (Nat × CVal))).isSome ↔ _
    simp [lookupA]
  · intro j b hb
    rw [hcop j] at hb
    exact absurd hb (by simp)
  · intro r hr
    rw [hrec] at hr
    exact h3 r hr

theorem inv_step (s : Sys) (op : Op) (h : SyncInv s) : SyncInv (stepOp s op) := by
  cases op with
  | get k =>
      show SyncInv (cacheDBGet s k).2
      cases hc : lookupA k s.cache with
      | some cv => rw [cacheDBGet_hit s k cv hc]; exact h
      | none =>
          cases hrow : lookupA k s.rows with
          | none =>
              rw [cacheDBGet_miss_notfound s k hc hrow]
              exact h
          | some v =>
              have hf := cacheDBGet_miss_found s k v hc hrow
              exact inv_record_install s k v h _ hf.2.1 hf.2.2.1 hf.2.2.2.1
  | set k v =>
      have hf := cacheDBSet_fields s k v
      exact inv_record_install s k v h _ hf.1 hf.2.1 hf.2.2.2.1
  | mutate k f => exact inv_mutate s k f h
  | evict k => exact inv_evict s k h
  | purge => exact inv_purge s h

theorem inv_runOps (ops : List Op) (s : Sys) (h : SyncInv s) :
    SyncInv (runOps s ops) := by
  induction ops generalizing s with
  | nil => exact h
  | cons op rest ih => exact ih (stepOp s op) (inv_step s op h)

theorem inv_initSys (rows : List (Nat × GoVal)) (uf : Bool) :
    SyncInv (initSys rows uf) := by
  refine ⟨fun k => by simp [initSys, lookupA], fun k b hb => ?_, fun r hr => ?_⟩
  · simp [initSys, lookupA] at hb
  · simp [initSys] at hr

/-- C9: after every sequence of `Get`, `Set`, caller mutation, eviction
and purge operations starting from a fresh cache, the snapshot registry
and the cache core hold exactly the same keys, and every baseline in the
registry was recorded (at load-miss fill or `Set`) structurally equal over
exported state to the live entry at that moment. -/
theorem C9_registry_synchronized (rows : List (Nat × GoVal)) (uf : Bool)
    (ops : List Op) : SyncInv (runOps (initSys rows uf) ops) :=
  inv_runOps ops (initSys rows uf) (inv_initSys rows uf)

theorem C9_registry_synchronized_witness :
    (lookupA 1 (runOps (initSys [] false)
        [Op.set 1 (GoVal.base 2), Op.mutate 1 (fun _ => GoVal.base 9),
         Op.evict 1]).cache).isSome
      ↔ (lookupA 1 (runOps (initSys [] false)
        [Op.set 1 (GoVal.base 2), Op.mutate 1 (fun _ => GoVal.base 9),
         Op.evict 1]).copies).isSome :=
  (C9_registry_synchronized [] false
    [Op.set 1 (GoVal.base 2), Op.mutate 1 (fun _ => GoVal.base 9),
     Op.evict 1]).1 1

